import Mathlib

/-!
Shallow embedding of the mathlib.c utility library
(src/_jsTest/native-libraries/mathlib/mathlib.c).

Conventions of the embedding:
* C `int` values are modelled as `Int` together with the wrapping map
  `wrap` onto the 32-bit two's-complement range, applied wherever the C
  code performs `int` arithmetic or converts a wider value to `int`
  (the specification fixes "wraps per native fixed-width integer
  semantics" as the intended behaviour of such conversions).
* C `double` values are modelled as real numbers.
* Nullable pointers become `Option`: a C string `char*` is
  `Option (List Char)` (the characters before the terminator), an int
  array with its separate size is `Option (List Int)`, a `Point*` is
  `Option Point`.
* In-place mutation is modelled by returning the new buffer contents.
-/

/-- Wrap an integer into the 32-bit two's-complement range
`[-2^31, 2^31)`, as native `int` arithmetic does. -/
def wrap (z : Int) : Int :=
  (z + 2147483648) % 4294967296 - 2147483648

/-- C source: `int add(int a, int b) { return a + b; }` -/
def add (a b : Int) : Int := wrap (a + b)

/-- C source: `int subtract(int a, int b) { return a - b; }` -/
def subtract (a b : Int) : Int := wrap (a - b)

/-- C source: `double multiply_double(double a, double b) { return a * b; }` -/
noncomputable def multiply_double (a b : ℝ) : ℝ := a * b

/-- C source: `double divide_double(double a, double b)`: returns `0.0` when
`b == 0.0`, otherwise the quotient `a / b`. -/
noncomputable def divide_double (a b : ℝ) : ℝ :=
  if b = 0 then 0 else a / b

/-- C source: `int string_length(const char* str)`: `0` for a null pointer,
otherwise `(int)strlen(str)` — the length converted to `int`. -/
def string_length : Option (List Char) → Int
  | none => 0
  | some s => wrap s.length

/-- One iteration body of `reverse_string`'s loop:
`temp = str[i]; str[i] = str[j]; str[j] = temp;` with `j = len - 1 - i`. -/
def swap2 (l : List Char) (i j : Nat) : List Char :=
  (l.set i (l.getD j 'A')).set j (l.getD i 'A')

/-- The loop of `reverse_string`: `for (i = 0; i < len / 2; i++)`
swapping `str[i]` with `str[len - 1 - i]`. -/
def revFrom (l : List Char) (len i : Nat) : List Char :=
  if i < len / 2 then revFrom (swap2 l i (len - 1 - i)) len (i + 1) else l
termination_by len / 2 - i

/-- C source: `void reverse_string(char* str)`: no-op on a null pointer or empty
string; otherwise `int len = strlen(str);` (converted to `int`, hence
wrapped) and the swapping loop.  A negative wrapped length makes
`len / 2` non-positive, so the loop body never runs. -/
def reverse_string : Option (List Char) → Option (List Char)
  | none => none
  | some [] => some []
  | some l => some (revFrom l (wrap l.length).toNat 0)

/-- The `Point` struct: two double fields. -/
structure Point where
  x : ℝ
  y : ℝ

/-- C source: `double distance(Point* p1, Point* p2)`: `0.0` when either pointer
is null, otherwise `sqrt(dx*dx + dy*dy)`. -/
noncomputable def distance : Option Point → Option Point → ℝ
  | none, _ => 0
  | some _, none => 0
  | some p1, some p2 =>
      Real.sqrt ((p2.x - p1.x) * (p2.x - p1.x) + (p2.y - p1.y) * (p2.y - p1.y))

/-- C source: `int apply_operation(int a, int b, math_callback callback)`:
`0` for a null callback, otherwise `callback(a, b)`. -/
def apply_operation (a b : Int) (callback : Option (Int → Int → Int)) : Int :=
  match callback with
  | none => 0
  | some f => f a b

/-- The loop of `sum_array`: `for (i = 0; i < size; i++) sum += arr[i];`
with `int` addition (wrapped). -/
def sumLoop (arr : List Int) (size i : Nat) (sum : Int) : Int :=
  if i < size then sumLoop arr size (i + 1) (wrap (sum + arr.getD i 0)) else sum
termination_by size - i

/-- C source: `int sum_array(const int* arr, int size)`: `0` for a null pointer or
non-positive size, otherwise the loop. -/
def sum_array : Option (List Int) → Int → Int
  | none, _ => 0
  | some arr, size => if size ≤ 0 then 0 else sumLoop arr size.toNat 0 0

/-- The loop of `double_array`: `for (i = 0; i < size; i++) arr[i] *= 2;`
with `int` multiplication (wrapped). -/
def dblLoop (arr : List Int) (size i : Nat) : List Int :=
  if i < size then dblLoop (arr.set i (wrap (arr.getD i 0 * 2))) size (i + 1) else arr
termination_by size - i

/-- C source: `void double_array(int* arr, int size)`: no-op for a null pointer or
non-positive size, otherwise the loop (returned as the new contents). -/
def double_array : Option (List Int) → Int → Option (List Int)
  | none, _ => none
  | some arr, size => if size ≤ 0 then some arr else some (dblLoop arr size.toNat 0)

/-! ### Helper lemmas about `wrap` -/

/-- Values already in the 32-bit range are fixed by `wrap`. -/
lemma wrap_eq_self (z : Int) (h1 : -2147483648 ≤ z) (h2 : z < 2147483648) :
    wrap z = z := by
  unfold wrap
  omega

/-- A wrapped nonnegative value never exceeds the original. -/
lemma wrap_toNat_le (L : Nat) : (wrap (L : Int)).toNat ≤ L := by
  unfold wrap
  omega

/-! ### Helper lemmas about the `reverse_string` loop -/

/-- Swapping two positions preserves the length. -/
lemma swap2_length (l : List Char) (i j : Nat) :
    (swap2 l i j).length = l.length := by
  simp [swap2]

/-- Pointwise description of one swap. -/
lemma swap2_getElem? (l : List Char) {i j : Nat}
    (hi : i < l.length) (hj : j < l.length) (k : Nat) :
    (swap2 l i j)[k]? = if k = j then l[i]? else if k = i then l[j]? else l[k]? := by
  unfold swap2
  by_cases hkj : k = j
  · subst hkj
    rw [if_pos rfl, List.getElem?_set_self (by simpa using hj),
      List.getD_eq_getElem l 'A' hi, List.getElem?_eq_getElem hi]
  · rw [if_neg hkj, List.getElem?_set_ne (Ne.symm hkj)]
    by_cases hki : k = i
    · subst hki
      rw [if_pos rfl, List.getElem?_set_self hi,
        List.getD_eq_getElem l 'A' hj, List.getElem?_eq_getElem hj]
    · rw [if_neg hki, List.getElem?_set_ne (Ne.symm hki)]

/-- The loop preserves the length of the buffer. -/
lemma revFrom_length (l : List Char) (len i : Nat) :
    (revFrom l len i).length = l.length := by
  rw [revFrom]
  split
  · rw [revFrom_length (swap2 l i (len - 1 - i)) len (i + 1), swap2_length]
  · rfl
termination_by len / 2 - i
decreasing_by omega

/-- Pointwise description of the loop from position `i` on: the segment
between `i` and `len - 1 - i` gets mirrored, everything else is kept. -/
lemma revFrom_getElem? (l : List Char) (len i : Nat) (hlen : len ≤ l.length) (k : Nat) :
    (revFrom l len i)[k]? =
      if i ≤ k ∧ k < len - i then l[len - 1 - k]? else l[k]? := by
  rw [revFrom]
  split
  case isTrue hlt =>
    have hi : i < l.length := by omega
    have hj : len - 1 - i < l.length := by omega
    rw [revFrom_getElem? (swap2 l i (len - 1 - i)) len (i + 1)
        (by rw [swap2_length]; exact hlen) k]
    rw [swap2_getElem? l hi hj (len - 1 - k), swap2_getElem? l hi hj k]
    by_cases h1 : i + 1 ≤ k ∧ k < len - (i + 1)
    · rw [if_pos h1, if_neg (by omega : ¬ len - 1 - k = len - 1 - i),
        if_neg (by omega : ¬ len - 1 - k = i),
        if_pos (by omega : i ≤ k ∧ k < len - i)]
    · rw [if_neg h1]
      by_cases hki : k = i
      · subst hki
        rw [if_neg (by omega : ¬ k = len - 1 - k), if_pos rfl,
          if_pos (by omega : k ≤ k ∧ k < len - k)]
      · by_cases hkj : k = len - 1 - i
        · subst hkj
          rw [if_pos rfl, if_pos (by omega : i ≤ len - 1 - i ∧ len - 1 - i < len - i)]
          congr 1
          omega
        · rw [if_neg hkj, if_neg hki, if_neg (by omega : ¬ (i ≤ k ∧ k < len - i))]
  case isFalse hge =>
    by_cases hc : i ≤ k ∧ k < len - i
    · rw [if_pos hc]
      congr 1
      omega
    · rw [if_neg hc]
termination_by len / 2 - i
decreasing_by omega

/-- Running the loop from position `0` with bound `n ≤ l.length`
reverses the first `n` characters and keeps the rest. -/
lemma revFrom_zero_eq (l : List Char) (n : Nat) (hn : n ≤ l.length) :
    revFrom l n 0 = (l.take n).reverse ++ l.drop n := by
  have ht : (l.take n).length = n := by
    rw [List.length_take]
    omega
  have hlen : ((l.take n).reverse).length = n := by
    rw [List.length_reverse, ht]
  apply List.ext_getElem?
  intro k
  rw [revFrom_getElem? l n 0 hn k, List.getElem?_append]
  by_cases hk : k < n
  · rw [if_pos (show 0 ≤ k ∧ k < n - 0 by omega),
      if_pos (show k < ((l.take n).reverse).length by rw [hlen]; omega),
      List.getElem?_reverse (show k < (l.take n).length by rw [ht]; omega), ht,
      List.getElem?_take, if_pos (show n - 1 - k < n by omega)]
  · rw [if_neg (show ¬ (0 ≤ k ∧ k < n - 0) by omega),
      if_neg (show ¬ k < ((l.take n).reverse).length by rw [hlen]; omega), hlen,
      List.getElem?_drop]
    congr 1
    omega

/-- Unfolding `reverse_string` on a present string: the first
`(int)strlen` characters (after wrapping) are reversed in place. -/
lemma reverse_string_some (l : List Char) :
    reverse_string (some l) =
      some ((l.take (wrap l.length).toNat).reverse ++ l.drop (wrap l.length).toNat) := by
  cases l with
  | nil => simp [reverse_string]
  | cons c cs =>
      show some (revFrom (c :: cs) (wrap (c :: cs).length).toNat 0) = _
      rw [revFrom_zero_eq _ _ (wrap_toNat_le _)]

/-- On strings shorter than `2^31` characters the wrapped length is the
length itself, so `reverse_string` is exactly list reversal. -/
lemma reverse_string_small (l : List Char) (h : l.length < 2147483648) :
    reverse_string (some l) = some l.reverse := by
  rw [reverse_string_some]
  have hw : (wrap l.length).toNat = l.length := by
    unfold wrap
    omega
  rw [hw, List.take_length, List.drop_length, List.append_nil]

/-- Applying `reverse_string` twice restores the original contents, for
buffers of any size: the same positions are swapped back. -/
lemma reverse_string_involutive (s : Option (List Char)) :
    reverse_string (reverse_string s) = s := by
  cases s with
  | none => rfl
  | some l =>
      rw [reverse_string_some l]
      have hn : (wrap l.length).toNat ≤ l.length := wrap_toNat_le _
      have hA : ((l.take (wrap l.length).toNat).reverse).length = (wrap l.length).toNat := by
        rw [List.length_reverse, List.length_take]
        omega
      have hr : ((l.take (wrap l.length).toNat).reverse ++ l.drop (wrap l.length).toNat).length
          = l.length := by
        rw [List.length_append, hA, List.length_drop]
        omega
      rw [reverse_string_some, hr, List.take_left' hA, List.drop_left' hA,
        List.reverse_reverse, List.take_append_drop]

/-! ### Helper lemmas about the array loops -/

/-- The summation loop folds wrapped addition over the elements from
position `i` up to the bound. -/
lemma sumLoop_eq (arr : List Int) (n i : Nat) (s : Int) (hin : i ≤ n) (hn : n ≤ arr.length) :
    sumLoop arr n i s = ((arr.take n).drop i).foldl (fun acc x => wrap (acc + x)) s := by
  rw [sumLoop]
  split
  case isTrue h =>
    have hi : i < (arr.take n).length := by
      rw [List.length_take]
      omega
    rw [List.drop_eq_getElem_cons hi, List.foldl_cons,
      sumLoop_eq arr n (i + 1) _ (by omega) hn, List.getElem_take,
      List.getD_eq_getElem arr 0 (show i < arr.length by omega)]
  case isFalse h =>
    rw [List.drop_eq_nil_of_le (by rw [List.length_take]; omega), List.foldl_nil]
termination_by n - i
decreasing_by omega

/-- The doubling loop maps wrapped doubling over positions `i` up to the
bound and keeps the rest of the buffer. -/
lemma dblLoop_eq (arr : List Int) (n i : Nat) (hin : i ≤ n) (hn : n ≤ arr.length) :
    dblLoop arr n i =
      arr.take i ++ ((arr.drop i).take (n - i)).map (fun e => wrap (e * 2)) ++ arr.drop n := by
  rw [dblLoop]
  split
  case isTrue h =>
    have hi : i < arr.length := by omega
    have hlt : (arr.take i).length = i := by
      rw [List.length_take]
      omega
    rw [List.getD_eq_getElem arr 0 hi, List.set_eq_take_append_cons_drop, if_pos hi,
      dblLoop_eq _ n (i + 1) (by omega)
        (by rw [List.length_append, hlt, List.length_cons, List.length_drop]; omega)]
    have hA1 : ((arr.take i) ++ [wrap (arr[i] * 2)]).length = i + 1 := by
      rw [List.length_append, hlt]
      rfl
    have h1 : (arr.take i ++ wrap (arr[i] * 2) :: arr.drop (i + 1)).take (i + 1)
        = arr.take i ++ [wrap (arr[i] * 2)] := by
      rw [List.append_cons, List.take_left' hA1]
    have h2 : (arr.take i ++ wrap (arr[i] * 2) :: arr.drop (i + 1)).drop (i + 1)
        = arr.drop (i + 1) := by
      rw [List.append_cons, List.drop_left' hA1]
    have h3 : (arr.take i ++ wrap (arr[i] * 2) :: arr.drop (i + 1)).drop n
        = arr.drop n := by
      rw [List.drop_append_eq_append_drop, hlt,
        List.drop_eq_nil_of_le (show (arr.take i).length ≤ n by rw [hlt]; omega),
        List.nil_append, show n - i = (n - (i + 1)) + 1 from by omega,
        List.drop_succ_cons, List.drop_drop]
      congr 1
      omega
    rw [h1, h2, h3, List.drop_eq_getElem_cons hi,
      show n - i = (n - (i + 1)) + 1 from by omega, List.take_succ_cons, List.map_cons]
    simp only [List.append_assoc, List.singleton_append, List.cons_append,
      List.nil_append]
  case isFalse h =>
    have hieq : i = n := by omega
    subst hieq
    rw [Nat.sub_self, List.take_zero, List.map_nil, List.append_nil, List.take_append_drop]
termination_by n - i
decreasing_by omega

/-! ### The claims -/

/-- C1: for every double `a` (including `a = 0`), `divide_double a 0 = 0`,
and for every `b ≠ 0` the result is the quotient `a / b`: division by
zero is masked by the sentinel `0` instead of an error or infinity. -/
theorem claim_C1_divide_double_spec :
    (∀ a : ℝ, divide_double a 0 = 0) ∧
    (∀ a b : ℝ, b ≠ 0 → divide_double a b = a / b) := by
  constructor
  · intro a
    simp [divide_double]
  · intro a b hb
    simp [divide_double, hb]

/-- Witness for C1 at `a = 6`, `b = 2`. -/
theorem claim_C1_witness : divide_double 6 2 = 3 := by
  rw [claim_C1_divide_double_spec.2 6 2 (by norm_num)]
  norm_num

/-- C2: for 32-bit two's-complement integers `a` and `b`,
`subtract (add a b) b = a`, all arithmetic wrapping modulo `2^32`. -/
theorem claim_C2_add_subtract_roundtrip (a b : Int)
    (ha1 : -2147483648 ≤ a) (ha2 : a < 2147483648)
    (hb1 : -2147483648 ≤ b) (hb2 : b < 2147483648) :
    subtract (add a b) b = a := by
  unfold subtract add wrap
  omega

/-- Witness for C2 at `a = 5`, `b = 3`. -/
theorem claim_C2_witness : subtract (add 5 3) 3 = 5 :=
  claim_C2_add_subtract_roundtrip 5 3 (by norm_num) (by norm_num) (by norm_num)
    (by norm_num)

/-- C9: for every double `a`, `multiply_double a 0 = 0`. -/
theorem claim_C9_multiply_double_zero (a : ℝ) : multiply_double a 0 = 0 := by
  unfold multiply_double
  exact mul_zero a

/-- C6: `apply_operation` returns exactly the callback's value on `a`
and `b` (the embedding invokes the callback exactly once), returns `0`
for an absent callback, and `apply_operation 2 3 add = 5`. -/
theorem claim_C6_apply_operation_spec :
    (∀ (a b : Int) (f : Int → Int → Int), apply_operation a b (some f) = f a b) ∧
    (∀ a b : Int, apply_operation a b none = 0) ∧
    apply_operation 2 3 (some add) = 5 := by
  refine ⟨fun a b f => rfl, fun a b => rfl, ?_⟩
  decide

/-- C8: `distance` returns the Euclidean distance of two present points,
`0` if either reference is absent, `0` on equal points, and `5` on the
3-4-5 example. -/
theorem claim_C8_distance_spec :
    (∀ p2 : Option Point, distance none p2 = 0) ∧
    (∀ p1 : Option Point, distance p1 none = 0) ∧
    (∀ p1 p2 : Point, distance (some p1) (some p2) =
      Real.sqrt ((p2.x - p1.x) ^ 2 + (p2.y - p1.y) ^ 2)) ∧
    (∀ p : Point, distance (some p) (some p) = 0) ∧
    distance (some (Point.mk 0 0)) (some (Point.mk 3 4)) = 5 := by
  have hform : ∀ p1 p2 : Point, distance (some p1) (some p2) =
      Real.sqrt ((p2.x - p1.x) ^ 2 + (p2.y - p1.y) ^ 2) := by
    intro p1 p2
    simp only [distance]
    congr 1
    ring
  refine ⟨fun p2 => rfl, ?_, hform, ?_, ?_⟩
  · intro p1
    cases p1 <;> rfl
  · intro p
    rw [hform]
    simp
  · rw [hform]
    norm_num
    rw [show (25 : ℝ) = 5 ^ 2 by norm_num, Real.sqrt_sq (by norm_num : (0:ℝ) ≤ 5)]

/-- C7 fails as stated: on a string of `2^31` characters, the conversion
of `strlen`'s result to `int` wraps, so `string_length` does not return
the character count. -/
theorem claim_C7_counterexample :
    string_length (some (List.replicate 2147483648 'a')) ≠
      ((List.replicate 2147483648 'a').length : Int) := by
  simp only [string_length, List.length_replicate]
  unfold wrap
  omega

/-- C7 (amended): `string_length` returns `0` on an absent reference and
the character count on any string shorter than `2^31` characters; in
particular it returns `5` on `"hello"`. -/
theorem claim_C7_string_length_amended :
    string_length none = 0 ∧
    (∀ l : List Char, l.length < 2147483648 → string_length (some l) = l.length) ∧
    string_length (some ['h', 'e', 'l', 'l', 'o']) = 5 := by
  refine ⟨rfl, ?_, by decide⟩
  intro l h
  simp only [string_length]
  unfold wrap
  omega

/-- Witness for C7 at a two-character string. -/
theorem claim_C7_witness : string_length (some ['a', 'b']) = 2 := by
  have h := claim_C7_string_length_amended.2.1 ['a', 'b'] (by norm_num)
  simpa using h

/-- C3 fails as stated: on a buffer of `2^31 + 1` characters the length
truncated to `int` is negative, the loop body never runs, and a single
application of `reverse_string` does not reverse the contents. -/
theorem claim_C3_counterexample :
    reverse_string (some ('a' :: List.replicate 2147483648 'b')) ≠
      some (('a' :: List.replicate 2147483648 'b').reverse) := by
  have h0 : (wrap ('a' :: List.replicate 2147483648 'b').length).toNat = 0 := by
    rw [List.length_cons, List.length_replicate]
    unfold wrap
    omega
  rw [reverse_string_some, h0, List.take_zero, List.reverse_nil, List.nil_append,
    List.drop_zero]
  intro h
  have h2 : ('a' :: List.replicate 2147483648 'b')
      = ('a' :: List.replicate 2147483648 'b').reverse := Option.some.inj h
  have h3 := congrArg (fun t => t[0]?) h2
  simp only [List.reverse_cons, List.reverse_replicate, List.getElem?_cons_zero] at h3
  rw [List.getElem?_append,
    if_pos (by rw [List.length_replicate]; norm_num),
    List.getElem?_replicate, if_pos (by norm_num)] at h3
  exact absurd (Option.some.inj h3) (by decide)

/-- C3 (amended): `reverse_string` is a no-op on an absent reference and
on the empty string; applying it twice restores any buffer; a single
application reverses the character order for every buffer shorter than
`2^31` characters (`"abc"` becomes `"cba"`), and in general reverses
exactly the prefix whose length is the buffer length truncated to `int`
(taken as `0` when negative), leaving the remaining characters in
place. -/
theorem claim_C3_reverse_string_amended :
    reverse_string none = none ∧
    reverse_string (some []) = some [] ∧
    (∀ l : List Char, l.length < 2147483648 → reverse_string (some l) = some l.reverse) ∧
    (∀ l : List Char, reverse_string (some l) =
      some ((l.take (wrap l.length).toNat).reverse ++ l.drop (wrap l.length).toNat)) ∧
    (∀ s : Option (List Char), reverse_string (reverse_string s) = s) ∧
    reverse_string (some ['a', 'b', 'c']) = some ['c', 'b', 'a'] := by
  refine ⟨rfl, rfl, reverse_string_small, reverse_string_some,
    reverse_string_involutive, ?_⟩
  rw [reverse_string_small _ (by norm_num)]
  rfl

/-- Witness for C3 at a two-character string. -/
theorem claim_C3_witness : reverse_string (some ['x', 'y']) = some ['y', 'x'] := by
  have h := claim_C3_reverse_string_amended.2.2.1 ['x', 'y'] (by norm_num)
  simpa using h

/-- C10 (implicit): `reverse_string` on a present buffer returns a
buffer of the same length whose characters are a permutation of the
original: nothing is added, dropped or changed in value. -/
theorem claim_C10_reverse_preserves_content (l : List Char) :
    ∃ r : List Char, reverse_string (some l) = some r ∧
      r.length = l.length ∧ r.Perm l := by
  have hn : (wrap (l.length : Int)).toNat ≤ l.length := wrap_toNat_le _
  refine ⟨_, reverse_string_some l, ?_, ?_⟩
  · rw [List.length_append, List.length_reverse, List.length_take, List.length_drop]
    omega
  · have h1 : ((l.take (wrap l.length).toNat).reverse ++ l.drop (wrap l.length).toNat).Perm
        (l.take (wrap l.length).toNat ++ l.drop (wrap l.length).toNat) :=
      (List.reverse_perm _).append_right _
    rwa [List.take_append_drop] at h1

/-- C4: `sum_array` returns `0` on an absent reference or non-positive
count and otherwise the (wrapped) sum of the first `count` elements;
`sum_array [1,2,3,4] 4 = 10` and `sum_array [] 0 = 0`. -/
theorem claim_C4_sum_array_spec :
    (∀ size : Int, sum_array none size = 0) ∧
    (∀ (arr : List Int) (size : Int), size ≤ 0 → sum_array (some arr) size = 0) ∧
    (∀ (arr : List Int) (size : Int), 0 < size → size.toNat ≤ arr.length →
      sum_array (some arr) size =
        (arr.take size.toNat).foldl (fun acc x => wrap (acc + x)) 0) ∧
    sum_array (some [1, 2, 3, 4]) 4 = 10 ∧
    sum_array (some []) 0 = 0 := by
  have hmain : ∀ (arr : List Int) (size : Int), 0 < size → size.toNat ≤ arr.length →
      sum_array (some arr) size =
        (arr.take size.toNat).foldl (fun acc x => wrap (acc + x)) 0 := by
    intro arr size hpos hlen
    simp only [sum_array]
    rw [if_neg (by omega), sumLoop_eq arr size.toNat 0 0 (by omega) hlen, List.drop_zero]
  refine ⟨fun _ => rfl, ?_, hmain, ?_, rfl⟩
  · intro arr size h
    simp only [sum_array]
    rw [if_pos h]
  · rw [hmain [1, 2, 3, 4] 4 (by norm_num) (by decide)]
    decide

/-- Witness for C4 at `[2, 3]` with count `2`. -/
theorem claim_C4_witness : sum_array (some [2, 3]) 2 = 5 := by
  rw [claim_C4_sum_array_spec.2.2.1 [2, 3] 2 (by norm_num) (by decide)]
  decide

/-- C5: `double_array` is a no-op on an absent reference or non-positive
count and otherwise replaces each of the first `count` elements `e` by
the wrapped `2 * e`, keeping the rest; `[1,2,3]` becomes `[2,4,6]`. -/
theorem claim_C5_double_array_spec :
    (∀ size : Int, double_array none size = none) ∧
    (∀ (arr : List Int) (size : Int), size ≤ 0 → double_array (some arr) size = some arr) ∧
    (∀ (arr : List Int) (size : Int), 0 < size → size.toNat ≤ arr.length →
      double_array (some arr) size =
        some ((arr.take size.toNat).map (fun e => wrap (2 * e)) ++ arr.drop size.toNat)) ∧
    double_array (some [1, 2, 3]) 3 = some [2, 4, 6] := by
  have hcomm : (fun e : Int => wrap (e * 2)) = fun e : Int => wrap (2 * e) := by
    funext e
    rw [mul_comm]
  have hmain : ∀ (arr : List Int) (size : Int), 0 < size → size.toNat ≤ arr.length →
      double_array (some arr) size =
        some ((arr.take size.toNat).map (fun e => wrap (2 * e)) ++ arr.drop size.toNat) := by
    intro arr size hpos hlen
    simp only [double_array]
    rw [if_neg (by omega), dblLoop_eq arr size.toNat 0 (by omega) hlen,
      List.take_zero, List.drop_zero, Nat.sub_zero, List.nil_append, hcomm]
  refine ⟨fun _ => rfl, ?_, hmain, ?_⟩
  · intro arr size h
    simp only [double_array]
    rw [if_pos h]
  · rw [hmain [1, 2, 3] 3 (by norm_num) (by decide)]
    decide

/-- Witness for C5 at `[5]` with count `1`. -/
theorem claim_C5_witness : double_array (some [5]) 1 = some [10] := by
  rw [claim_C5_double_array_spec.2.2.1 [5] 1 (by norm_num) (by decide)]
  decide
